import Mathlib

/-!
Verification of the Winsper recording–transcription orchestration engine.

The embedding follows the concrete code in `src/unnamed/part_000` (the Rust
backend: hotkey toggle handling, audio capture callback, stop/transcribe
worker, RMS meter, model loading, clipboard dispatch), refined by the code
quoted in `src/log.md` where the two differ (Result-typed clipboard/paste,
the `transcription_started` event, the not-loaded error).  `f32` samples are
modelled as rationals; the square root applied by `compute_rms` is taken in
`ℝ` in the theorem statements.

The controller, capture callback and the per-session worker threads are
embedded as a small-step machine over explicit events:

* `Ev.toggle`   — a Right-Ctrl press delivered to the hotkey callback;
* `Ev.chunk xs` — the cpal input callback delivering `xs` (already converted
  to mono) and appending it to the shared buffer;
* `Ev.snap sid` — the worker thread spawned for session `sid` runs its first
  section: takes the audio lock, drops (`take`s) whatever stream is stored,
  clones the shared buffer as its snapshot and clears it;
* `Ev.finish sid res` — that worker's inference finishes with `res` and the
  completion section runs (dispatch to clipboard, terminal event).

Worker scheduling is left to the environment (the order of `snap`/`finish`
events), exactly as `std::thread::spawn` leaves it to the OS.  Samples in
the shared buffer carry a ghost tag naming the session whose stream captured
them; notifications carry a ghost session id.  Neither tag exists at run
time; they only attribute observations to sessions.
-/

namespace Winsper

/-! ## Resampler (modelled from the spec)

Modelled from the spec: the body of `resample_to_16khz` is not in `src`
(`src/unnamed/part_000` leaves resampling as a `TODO`, `src/log.md` step 5
records only its signature).  Following spec §4.4: a deterministic
quality-preserving interpolation with output length
`round(inputLength * targetRate / sourceRate)`, a no-op when the rates are
equal, and empty output on empty input.  `roundDiv a b` is `round (a / b)`
(half-up) on naturals. -/

/-- Half-up rounding of `a / b` on naturals: `round (a / b) = ⌊(2a + b) / 2b⌋`. -/
def roundDiv (a b : Nat) : Nat := (2 * a + b) / (2 * b)

/-- Sample access with zero padding past the end, as interpolators do at the tail. -/
def sampleAt (x : List ℚ) (i : Nat) : ℚ := x.getD i 0

/-- Modelled from the spec: linear interpolation of the source signal at output
index `i`, reading the source at rational position `i * sr / tr`. -/
def interpAt (x : List ℚ) (sr tr : Nat) (i : Nat) : ℚ :=
  let p : ℚ := (i * sr : ℚ) / (tr : ℚ)
  let k : Nat := p.floor.toNat
  let frac : ℚ := p - (k : ℚ)
  (1 - frac) * sampleAt x k + frac * sampleAt x (k + 1)

/-- Modelled from the spec: `resample(samples, sourceRate, targetRate)`,
deterministic, identity when `sourceRate = targetRate`, otherwise an
interpolated signal of length `round(len * targetRate / sourceRate)`. -/
def resample (x : List ℚ) (sourceRate targetRate : Nat) : List ℚ :=
  if sourceRate = targetRate then x
  else (List.range (roundDiv (x.length * targetRate) sourceRate)).map
    (interpAt x sourceRate targetRate)

/-! ## RMS level meter

From `src/unnamed/part_000` lines 418–425 (`compute_rms`): `0.0` for an empty
buffer, otherwise `sqrt (Σ s² / len)`.  `compute_rms_sq` is the radicand; the
square root is applied in `ℝ` in the statements about emitted levels. -/

/-- The squared RMS level of a buffer: `Σ s² / len`, and `0` for an empty buffer. -/
def compute_rms_sq (samples : List ℚ) : ℚ :=
  if samples.isEmpty then 0
  else (samples.map (fun s => s * s)).sum / (samples.length : ℚ)

/-! ## Transcription engine

From `src/unnamed/part_000` lines 481–517 and 536–558, with the not-loaded
check and error text recorded in `src/log.md` step 5 (the body of
`run_whisper_on_buffer` is elided in `part_000`).  The whisper context is
opaque: inference is a function from the 16 kHz samples to decoded segments,
supplied by the environment. -/

/-- An opaque loaded whisper context: `full` runs inference and yields the
decoded text segments in emission order (or an inference error). -/
structure WhisperCtx where
  full : List ℚ → Except String (List String)

/-- `WhisperState` from `part_000`: the optionally loaded context plus the
path it was loaded from. -/
structure WhisperState where
  ctx : Option WhisperCtx
  model_path : Option String

/-- The not-loaded error text recorded in `src/log.md` step 5. -/
def noModelMsg : String := "No Whisper model loaded. Please set a model first."

/-- `set_active_model` from `src/unnamed/part_000` lines 508–517: build a new
context from the path (the `WhisperContext::new` call is the `load` oracle);
on failure the `?` operator returns before the state is touched; on success
both fields are replaced. -/
def set_active_model (load : String → Except String WhisperCtx)
    (path : String) (ws : WhisperState) : Except String Unit × WhisperState :=
  match load path with
  | .error e => (.error e, ws)
  | .ok c => (.ok (), { ctx := some c, model_path := some path })

/-- `run_whisper_on_buffer` per the signature and behaviour in `src/log.md`
step 5: fail with `noModelMsg` when no context is loaded, otherwise resample
to 16 kHz, run inference once, concatenate the segments and trim.  The second
component counts invocations of the underlying model. -/
def run_whisper_on_buffer (samples : List ℚ) (sample_rate : Nat)
    (ws : WhisperState) : Except String String × Nat :=
  match ws.ctx with
  | none => (.error noModelMsg, 0)
  | some c =>
    match c.full (resample samples sample_rate 16000) with
    | .error e => (.error e, 1)
    | .ok segs => (.ok (String.join segs).trim, 1)

/-! ## Output dispatcher

`copy_to_clipboard` and `simulate_paste` as quoted from the implementation in
`src/log.md` step 6 (Result-typed; a `paste_error` is reported on failure and
the transcription event is still emitted).  The clipboard is the `wr` oracle.
Modelled from the spec: the body of `copy_to_clipboard_and_paste` is not in
`src` (`log.md` only says it combines the two operations); per spec §4.6 the
paste gesture is synthesized if and only if the clipboard write succeeded. -/

/-- Observable side effects of the dispatcher, reported separately from the
session notifications. -/
inductive Action where
  | clipboard_write (text : String) (ok : Bool)
  | paste
  | paste_error (msg : String)
deriving DecidableEq, Repr

/-- `copy_to_clipboard_and_paste`: attempt the clipboard write through the
oracle `wr`; on success synthesize the paste gesture, on failure report a
`paste_error` and do not paste. -/
def dispatch (wr : String → Except String Unit) (text : String) :
    List Action × Except String Unit :=
  match wr text with
  | .ok _ => ([.clipboard_write text true, .paste], .ok ())
  | .error e => ([.clipboard_write text false, .paste_error e], .error e)

/-! ## The controller machine -/

/-- Outbound notifications (spec §6).  The session id is a ghost annotation:
the Tauri events carry none, the id only attributes each event to the session
whose code path emitted it.  `audio_level` carries the squared level
(`compute_rms_sq` of the shared buffer); the emitted value is its square
root. -/
inductive Notif where
  | recording_started (sid : Nat)
  | audio_level (sid : Nat) (levelSq : ℚ)
  | recording_stopped (sid : Nat)
  | transcription_started (sid : Nat)
  | transcription_done (sid : Nat) (text : String)
  | transcription_error (sid : Nat) (msg : String)
  | no_model_selected (sid : Nat)
deriving DecidableEq, Repr

/-- The session a notification belongs to. -/
def sidOf : Notif → Nat
  | .recording_started sid => sid
  | .audio_level sid _ => sid
  | .recording_stopped sid => sid
  | .transcription_started sid => sid
  | .transcription_done sid _ => sid
  | .transcription_error sid _ => sid
  | .no_model_selected sid => sid

/-- The shared mutable state of `src/unnamed/part_000`: the `is_recording`
atomic, the `AudioContext` (`buffer`, `stream`) and the set of live worker
threads.  `streamSid` is `ctx.stream` reduced to which session's stream is
stored (if any); buffer samples are tagged (ghost) with the session whose
stream pushed them; `pending` are sessions whose stop was signalled but whose
worker has not yet taken its snapshot; `running` are workers holding their
snapshot and awaiting inference; `snaps` is a ghost log of every snapshot
handed to transcription, in snapshot order. -/
structure SysState where
  is_recording : Bool
  buffer : List (Nat × ℚ)
  streamSid : Option Nat
  nextSid : Nat
  pending : List Nat
  running : List Nat
  snaps : List (Nat × List (Nat × ℚ))
deriving DecidableEq, Repr

/-- Startup state: not recording, empty buffer, no stream, no workers. -/
def init : SysState :=
  { is_recording := false, buffer := [], streamSid := none, nextSid := 0
    pending := [], running := [], snaps := [] }

/-- Environment events: hotkey presses, capture callbacks, and the two
scheduling points of each worker thread. -/
inductive Ev where
  | toggle
  | chunk (xs : List ℚ)
  | snap (sid : Nat)
  | finish (sid : Nat) (res : Except String String)
deriving Repr

/-- The samples an event delivers to the capture callback (empty for
non-`chunk` events); used to state hypotheses about the captured signal. -/
def chunkVals : Ev → List ℚ
  | .chunk xs => xs
  | _ => []

/-- One step of the system.  `toggle` follows `start_hotkey_listener`
(`part_000` lines 256–283): the `is_recording` flag alone decides between
start (open a stream for a fresh session, overwriting `ctx.stream`, and emit
`recording_started`) and stop (flip the flag, emit `recording_stopped`, spawn
the worker — the stream stays open until that worker runs).  `chunk` follows
`build_input_stream` (lines 390–416): append to the shared buffer and emit
the RMS of the whole buffer.  `snap` follows the first half of
`stop_audio_and_transcribe` (lines 432–458): `ctx.stream.take()` (dropping
whatever stream is stored, even a newer session's), snapshot and clear the
buffer, then begin inference (`transcription_started`, per `log.md` step 5).
`finish` follows its second half: emit the terminal event, dispatching the
text to the clipboard on success; a `noModelMsg` failure surfaces as
`no_model_selected` (spec §6, `src/src/Overlay.tsx` listener), other failures
as `transcription_error`. -/
def step (wr : String → Except String Unit) (s : SysState) :
    Ev → SysState × List Notif × List Action
  | .toggle =>
    if s.is_recording then
      let cur := s.nextSid - 1
      ({ s with is_recording := false, pending := s.pending ++ [cur] },
       [.recording_stopped cur], [])
    else
      ({ s with is_recording := true, streamSid := some s.nextSid,
                nextSid := s.nextSid + 1 },
       [.recording_started s.nextSid], [])
  | .chunk xs =>
    match s.streamSid with
    | none => (s, [], [])
    | some k =>
      let buf := s.buffer ++ xs.map (fun x => (k, x))
      ({ s with buffer := buf },
       [.audio_level k (compute_rms_sq (buf.map Prod.snd))], [])
  | .snap sid =>
    if sid ∈ s.pending then
      ({ s with streamSid := none, buffer := [],
                pending := s.pending.erase sid,
                running := s.running ++ [sid],
                snaps := s.snaps ++ [(sid, s.buffer)] },
       [.transcription_started sid], [])
    else (s, [], [])
  | .finish sid res =>
    if sid ∈ s.running then
      let s' := { s with running := s.running.erase sid }
      match res with
      | .ok t => (s', [.transcription_done sid t], (dispatch wr t).1)
      | .error e =>
        if e = noModelMsg then (s', [.no_model_selected sid], [])
        else (s', [.transcription_error sid e], [])
    else (s, [], [])

/-- Run the machine from a state, accumulating notifications and actions. -/
def runFrom (wr : String → Except String Unit) (s : SysState) :
    List Ev → SysState × List Notif × List Action
  | [] => (s, [], [])
  | e :: evs =>
    let r1 := step wr s e
    let r2 := runFrom wr r1.1 evs
    (r2.1, r1.2.1 ++ r2.2.1, r1.2.2 ++ r2.2.2)

/-- Run from startup. -/
def run (wr : String → Except String Unit) (evs : List Ev) :
    SysState × List Notif × List Action :=
  runFrom wr init evs

/-- Final state of a run. -/
def runState (wr : String → Except String Unit) (evs : List Ev) : SysState :=
  (run wr evs).1

/-- Notifications of a run, in emission order. -/
def runNotifs (wr : String → Except String Unit) (evs : List Ev) : List Notif :=
  (run wr evs).2.1

/-- Dispatcher actions of a run, in order. -/
def runActs (wr : String → Except String Unit) (evs : List Ev) : List Action :=
  (run wr evs).2.2

/-- A clipboard oracle that always succeeds. -/
def wrOk : String → Except String Unit := fun _ => .ok ()

/-- Number of in-flight transcription jobs: workers spawned at a stop and not
yet completed (whether or not they have taken their snapshot). -/
def inflight (s : SysState) : Nat := s.pending.length + s.running.length

/-! ## Per-session notification order -/

/-- The notifications attributed to session `sid`, in emission order. -/
def sessionNotifs (sid : Nat) (ns : List Notif) : List Notif :=
  ns.filter (fun n => sidOf n = sid)

/-- Order automaton for one session's notifications, with the `audio_level`
trailing a `recording_stopped` admitted (the capture stream stays open until
the worker's snapshot, so the callback can still fire after the stop event
was emitted).  States: 0 nothing yet, 1 started, 2 stopped, 3 transcription
started, 4 terminal emitted, 5 order violated (absorbing). -/
def notifKindStep (st : Nat) (n : Notif) : Nat :=
  match st, n with
  | 0, .recording_started _ => 1
  | 1, .audio_level _ _ => 1
  | 1, .recording_stopped _ => 2
  | 2, .audio_level _ _ => 2
  | 2, .transcription_started _ => 3
  | 3, .transcription_done _ _ => 4
  | 3, .transcription_error _ _ => 4
  | 3, .no_model_selected _ => 4
  | _, _ => 5

/-- Automaton state reached by a session's notification sequence. -/
def sessionPhase (ns : List Notif) : Nat := ns.foldl notifKindStep 0

/-- Order automaton for the order exactly as the spec states it
(`recording_started, audio_level*, recording_stopped, transcription_started,
terminal`): no `audio_level` after `recording_stopped`. -/
def strictKindStep (st : Nat) (n : Notif) : Nat :=
  match st, n with
  | 0, .recording_started _ => 1
  | 1, .audio_level _ _ => 1
  | 1, .recording_stopped _ => 2
  | 2, .transcription_started _ => 3
  | 3, .transcription_done _ _ => 4
  | 3, .transcription_error _ _ => 4
  | 3, .no_model_selected _ => 4
  | _, _ => 5

/-- Does a session's notification sequence follow the spec's order exactly? -/
def strictOk (ns : List Notif) : Bool := ns.foldl strictKindStep 0 != 5

/-- The shape of a notification with the level payload dropped (level values
are compared separately, by the bound theorems): used to state counterexample
traces without fixing the rational level value. -/
inductive NotifKind where
  | started
  | level
  | stopped
  | tstarted
  | done (text : String)
  | failed (msg : String)
  | nomodel
deriving DecidableEq, Repr

/-- Kind and session of a notification. -/
def kindSid : Notif → NotifKind × Nat
  | .recording_started sid => (.started, sid)
  | .audio_level sid _ => (.level, sid)
  | .recording_stopped sid => (.stopped, sid)
  | .transcription_started sid => (.tstarted, sid)
  | .transcription_done sid t => (.done t, sid)
  | .transcription_error sid m => (.failed m, sid)
  | .no_model_selected sid => (.nomodel, sid)

/-- Is a notification one of the three terminal notifications? -/
def isTerminal : Notif → Bool
  | .transcription_done _ _ => true
  | .transcription_error _ _ => true
  | .no_model_selected _ => true
  | _ => false

/-- The spec's cross-session ordering: before any notification of a session,
every earlier session has already emitted its terminal notification. -/
def noLaterBefore (ns : List Notif) : Bool :=
  (List.range ns.length).all fun i =>
    (List.range (sidOf (ns.getD i (.recording_started 0)))).all fun a =>
      (List.range i).any fun k =>
        isTerminal (ns.getD k (.recording_started 0)) &&
        sidOf (ns.getD k (.recording_started 0)) == a

/-- The phase session `sid` is in according to the controller state; it is
the automaton state its notifications-so-far must have reached.  Sessions in
`running` have had their snapshot taken (3), sessions in `pending` are
stopped (2), the session being captured is 1, any other already-begun session
has received its terminal notification (4), unborn sessions are 0. -/
def phaseNum (s : SysState) (sid : Nat) : Nat :=
  if sid ∈ s.running then 3
  else if sid ∈ s.pending then 2
  else if s.is_recording = true ∧ sid + 1 = s.nextSid then 1
  else if sid < s.nextSid then 4
  else 0

/-! ## Session alternation marks -/

/-- Project a notification to a session boundary mark:
`(true, sid)` for `recording_started`, `(false, sid)` for `recording_stopped`. -/
def sessionMark : Notif → Option (Bool × Nat)
  | .recording_started sid => some (true, sid)
  | .recording_stopped sid => some (false, sid)
  | _ => none

/-- The session boundary marks of a notification sequence. -/
def marksOf (ns : List Notif) : List (Bool × Nat) := ns.filterMap sessionMark

/-- The boundary marks of `n` completed sessions:
start 0, stop 0, start 1, stop 1, …, start (n-1), stop (n-1). -/
def fullMarks : Nat → List (Bool × Nat)
  | 0 => []
  | n + 1 => fullMarks n ++ [(true, n), (false, n)]

/-- The boundary marks a state with `n` sessions begun accounts for: all
complete, or the last still open when recording. -/
def stateMarks (n : Nat) (b : Bool) : List (Bool × Nat) :=
  if b then fullMarks (n - 1) ++ [(true, n - 1)] else fullMarks n

/-! ## Invariants -/

/-- The stopped-or-snapshotted workers, as one list. -/
def pendRun (s : SysState) : List Nat := s.pending ++ s.running

/-- Structural invariant of every reachable state: worker session ids are
below the session counter, none is the session currently being captured,
each worker exists once, the stored stream (if any) belongs to the capturing
session or to a stopped-but-unsnapped one, and the counter is positive while
recording. -/
structure StateInv (s : SysState) : Prop where
  lt_next : ∀ x ∈ pendRun s, x < s.nextSid
  ne_cur : s.is_recording = true → ∀ x ∈ pendRun s, x + 1 ≠ s.nextSid
  nodup : (pendRun s).Nodup
  stream_inv : ∀ k, s.streamSid = some k →
    (s.is_recording = true ∧ k + 1 = s.nextSid) ∨ k ∈ s.pending
  pos : s.is_recording = true → 1 ≤ s.nextSid

/-! ## Sequentialized schedules (for the buffer hand-off claim) -/

/-- Does every sample of every snapshot carry the tag of the session the
snapshot was handed to? -/
def snapsPure (s : SysState) : Bool :=
  s.snaps.all fun p => p.2.all fun q => q.1 == p.1

/-- A schedule is prompt when every session's worker has taken its snapshot
before the next session starts: checked at each start toggle by requiring no
stopped-but-unsnapped session. -/
def promptFrom (wr : String → Except String Unit) :
    SysState → List Ev → Bool
  | _, [] => true
  | s, e :: evs =>
    (match e with
     | .toggle => s.is_recording || s.pending.isEmpty
     | _ => true)
    && promptFrom wr (step wr s e).1 evs

/-- Invariant maintained on prompt schedules: buffer samples are tagged with
the session owning the stored stream (and the buffer is empty when no stream
is stored), every recorded snapshot is pure, and at most one session is
stopped-but-unsnapped (none while capturing). -/
structure PromptInv (s : SysState) : Prop where
  base : StateInv s
  buf_tag : ∀ k, s.streamSid = some k → ∀ q ∈ s.buffer, q.1 = k
  buf_none : s.streamSid = none → s.buffer = []
  snaps_tag : ∀ p ∈ s.snaps, ∀ q ∈ p.2, q.1 = p.1
  pend_le : s.pending.length ≤ 1
  rec_pend : s.is_recording = true → s.pending = []

/-! ## Concrete schedules used in counterexamples and witnesses -/

/-- Two sessions toggled through while neither worker has finished: both
workers have taken their snapshots and sit in inference. -/
def twoJobsTrace : List Ev := [.toggle, .toggle, .snap 0, .toggle, .toggle, .snap 1]

/-- One session recorded and stopped, its worker mid-inference. -/
def midTranscribeTrace : List Ev := [.toggle, .toggle, .snap 0]

/-- A second session toggled through while session 0's worker is still in
inference; session 0 terminates only afterwards. -/
def crossSessionTrace : List Ev :=
  [.toggle, .toggle, .chunk [0], .toggle, .toggle, .snap 0, .finish 0 (.ok "hi")]

/-- A session whose transcription succeeds with the empty string. -/
def emptyTextTrace : List Ev := [.toggle, .toggle, .snap 0, .finish 0 (.ok "")]

/-- Session 1 starts before session 0's worker has taken its snapshot;
session 1's snapshot then contains session 0's sample. -/
def staleBufferTrace : List Ev :=
  [.toggle, .chunk [1], .toggle, .toggle, .chunk [2], .toggle, .snap 1]

/-- The same two sessions under a prompt schedule: each worker snapshots
before the next session starts. -/
def promptTrace : List Ev :=
  [.toggle, .chunk [1], .toggle, .snap 0, .toggle, .chunk [2], .toggle, .snap 1]

/-! ## Helper lemmas: RMS bounds -/

theorem sum_sq_le_length (l : List ℚ) (h : ∀ x ∈ l, x * x ≤ 1) :
    (l.map (fun s => s * s)).sum ≤ (l.length : ℚ) := by
  induction l with
  | nil => simp
  | cons a t ih =>
    simp only [List.map_cons, List.sum_cons, List.length_cons]
    push_cast
    have ha := h a (by simp)
    have ht := ih (fun x hx => h x (by simp [hx]))
    linarith

theorem sum_sq_nonneg (l : List ℚ) : 0 ≤ (l.map (fun s => s * s)).sum := by
  induction l with
  | nil => simp
  | cons a t ih =>
    simp only [List.map_cons, List.sum_cons]
    nlinarith [mul_self_nonneg a]

theorem compute_rms_sq_nonneg (l : List ℚ) : 0 ≤ compute_rms_sq l := by
  unfold compute_rms_sq
  split
  · exact le_refl 0
  · exact div_nonneg (sum_sq_nonneg l) (by positivity)

theorem compute_rms_sq_le_one (l : List ℚ) (h : ∀ x ∈ l, x * x ≤ 1) :
    compute_rms_sq l ≤ 1 := by
  unfold compute_rms_sq
  split
  · exact zero_le_one
  · rename_i hne
    have hlen : 0 < l.length := by
      cases l with
      | nil => simp at hne
      | cons a t => simp
    rw [div_le_one (by exact_mod_cast hlen)]
    exact sum_sq_le_length l h

theorem compute_rms_sq_zero (l : List ℚ) (h : ∀ x ∈ l, x = 0) :
    compute_rms_sq l = 0 := by
  unfold compute_rms_sq
  split
  · rfl
  · rw [List.sum_eq_zero, zero_div]
    intro y hy
    rcases List.mem_map.mp hy with ⟨x, hx, rfl⟩
    rw [h x hx, mul_zero]

/-! ## Helper lemmas: step characterization -/

theorem step_start (wr : String → Except String Unit) (s : SysState)
    (h : s.is_recording = false) :
    step wr s .toggle =
      ({ s with is_recording := true, streamSid := some s.nextSid,
                nextSid := s.nextSid + 1 },
       [.recording_started s.nextSid], []) := by
  simp [step, h]

theorem step_stop (wr : String → Except String Unit) (s : SysState)
    (h : s.is_recording = true) :
    step wr s .toggle =
      ({ s with is_recording := false, pending := s.pending ++ [s.nextSid - 1] },
       [.recording_stopped (s.nextSid - 1)], []) := by
  simp [step, h]

theorem step_chunk_none (wr : String → Except String Unit) (s : SysState)
    (xs : List ℚ) (h : s.streamSid = none) :
    step wr s (.chunk xs) = (s, [], []) := by
  simp [step, h]

theorem step_chunk_some (wr : String → Except String Unit) (s : SysState)
    (xs : List ℚ) (k : Nat) (h : s.streamSid = some k) :
    step wr s (.chunk xs) =
      ({ s with buffer := s.buffer ++ xs.map (fun x => (k, x)) },
       [.audio_level k (compute_rms_sq
          ((s.buffer ++ xs.map (fun x => (k, x))).map Prod.snd))], []) := by
  simp [step, h]

theorem step_snap_mem (wr : String → Except String Unit) (s : SysState)
    (sid : Nat) (h : sid ∈ s.pending) :
    step wr s (.snap sid) =
      ({ s with streamSid := none, buffer := [],
                pending := s.pending.erase sid,
                running := s.running ++ [sid],
                snaps := s.snaps ++ [(sid, s.buffer)] },
       [.transcription_started sid], []) := by
  simp [step, h]

theorem step_snap_not (wr : String → Except String Unit) (s : SysState)
    (sid : Nat) (h : sid ∉ s.pending) :
    step wr s (.snap sid) = (s, [], []) := by
  simp [step, h]

theorem step_finish_ok (wr : String → Except String Unit) (s : SysState)
    (sid : Nat) (t : String) (h : sid ∈ s.running) :
    step wr s (.finish sid (.ok t)) =
      ({ s with running := s.running.erase sid },
       [.transcription_done sid t], (dispatch wr t).1) := by
  simp [step, h]

theorem step_finish_nomodel (wr : String → Except String Unit) (s : SysState)
    (sid : Nat) (h : sid ∈ s.running) :
    step wr s (.finish sid (.error noModelMsg)) =
      ({ s with running := s.running.erase sid },
       [.no_model_selected sid], []) := by
  simp [step, h]

theorem step_finish_err (wr : String → Except String Unit) (s : SysState)
    (sid : Nat) (e : String) (h : sid ∈ s.running) (he : e ≠ noModelMsg) :
    step wr s (.finish sid (.error e)) =
      ({ s with running := s.running.erase sid },
       [.transcription_error sid e], []) := by
  simp [step, h, he]

theorem step_finish_not (wr : String → Except String Unit) (s : SysState)
    (sid : Nat) (res : Except String String) (h : sid ∉ s.running) :
    step wr s (.finish sid res) = (s, [], []) := by
  cases res with
  | ok t => simp [step, h]
  | error e => simp [step, h]

/-! ## Helper lemmas: audio level bounds along a run -/

theorem step_buffer_bound (wr : String → Except String Unit) (s : SysState)
    (e : Ev) (hbuf : ∀ p ∈ s.buffer, p.2 * p.2 ≤ 1)
    (hev : ∀ x ∈ chunkVals e, x * x ≤ 1) :
    ∀ p ∈ (step wr s e).1.buffer, p.2 * p.2 ≤ 1 := by
  cases e with
  | toggle =>
    cases hrec : s.is_recording with
    | true => rw [step_stop wr s hrec]; exact hbuf
    | false => rw [step_start wr s hrec]; exact hbuf
  | chunk xs =>
    cases hst : s.streamSid with
    | none => rw [step_chunk_none wr s xs hst]; exact hbuf
    | some k =>
      rw [step_chunk_some wr s xs k hst]
      intro p hp
      rcases List.mem_append.mp hp with h | h
      · exact hbuf p h
      · rcases List.mem_map.mp h with ⟨x, hx, rfl⟩
        exact hev x hx
  | snap sid =>
    by_cases h : sid ∈ s.pending
    · rw [step_snap_mem wr s sid h]
      intro p hp
      simp at hp
    · rw [step_snap_not wr s sid h]
      exact hbuf
  | finish sid res =>
    by_cases h : sid ∈ s.running
    · cases res with
      | ok t => rw [step_finish_ok wr s sid t h]; exact hbuf
      | error e =>
        by_cases he : e = noModelMsg
        · subst he
          rw [step_finish_nomodel wr s sid h]
          exact hbuf
        · rw [step_finish_err wr s sid e h he]
          exact hbuf
    · rw [step_finish_not wr s sid res h]
      exact hbuf

theorem step_level_mem (wr : String → Except String Unit) (s : SysState)
    (e : Ev) (sid : Nat) (q : ℚ)
    (h : Notif.audio_level sid q ∈ (step wr s e).2.1) :
    ∃ k xs, e = .chunk xs ∧ s.streamSid = some k ∧
      q = compute_rms_sq ((s.buffer ++ xs.map (fun x => (k, x))).map Prod.snd) := by
  cases e with
  | toggle =>
    cases hrec : s.is_recording with
    | true => rw [step_stop wr s hrec] at h; simp at h
    | false => rw [step_start wr s hrec] at h; simp at h
  | chunk xs =>
    cases hst : s.streamSid with
    | none => rw [step_chunk_none wr s xs hst] at h; simp at h
    | some k =>
      rw [step_chunk_some wr s xs k hst] at h
      simp only [List.mem_singleton, Notif.audio_level.injEq] at h
      exact ⟨k, xs, rfl, rfl, h.2⟩
  | snap sid' =>
    by_cases hp : sid' ∈ s.pending
    · rw [step_snap_mem wr s sid' hp] at h; simp at h
    · rw [step_snap_not wr s sid' hp] at h; simp at h
  | finish sid' res =>
    by_cases hp : sid' ∈ s.running
    · cases res with
      | ok t => rw [step_finish_ok wr s sid' t hp] at h; simp at h
      | error e =>
        by_cases he : e = noModelMsg
        · subst he
          rw [step_finish_nomodel wr s sid' hp] at h
          simp at h
        · rw [step_finish_err wr s sid' e hp he] at h
          simp at h
    · rw [step_finish_not wr s sid' res hp] at h; simp at h

theorem level_mem_bound (wr : String → Except String Unit) (evs : List Ev) :
    ∀ s : SysState, (∀ p ∈ s.buffer, p.2 * p.2 ≤ 1) →
    (∀ e ∈ evs, ∀ x ∈ chunkVals e, x * x ≤ 1) →
    ∀ sid q, Notif.audio_level sid q ∈ (runFrom wr s evs).2.1 →
    0 ≤ q ∧ q ≤ 1 := by
  induction evs with
  | nil =>
    intro s _ _ sid q hq
    simp [runFrom] at hq
  | cons e evs ih =>
    intro s hbuf hev sid q hq
    simp only [runFrom, List.mem_append] at hq
    rcases hq with hq | hq
    · rcases step_level_mem wr s e sid q hq with ⟨k, xs, rfl, hst, rfl⟩
      have hall : ∀ y ∈ (s.buffer ++ xs.map (fun x => (k, x))).map Prod.snd,
          y * y ≤ 1 := by
        intro y hy
        rcases List.mem_map.mp hy with ⟨p, hp, rfl⟩
        rcases List.mem_append.mp hp with h | h
        · exact hbuf p h
        · rcases List.mem_map.mp h with ⟨x, hx, rfl⟩
          exact hev _ (List.mem_cons_self _ _) x hx
      exact ⟨compute_rms_sq_nonneg _, compute_rms_sq_le_one _ hall⟩
    · exact ih (step wr s e).1
        (step_buffer_bound wr s e hbuf (hev e (List.mem_cons_self _ _)))
        (fun e' he' => hev e' (List.mem_cons_of_mem _ he')) sid q hq

theorem step_buffer_zero (wr : String → Except String Unit) (s : SysState)
    (e : Ev) (hbuf : ∀ p ∈ s.buffer, p.2 = 0)
    (hev : ∀ x ∈ chunkVals e, x = 0) :
    ∀ p ∈ (step wr s e).1.buffer, p.2 = 0 := by
  cases e with
  | toggle =>
    cases hrec : s.is_recording with
    | true => rw [step_stop wr s hrec]; exact hbuf
    | false => rw [step_start wr s hrec]; exact hbuf
  | chunk xs =>
    cases hst : s.streamSid with
    | none => rw [step_chunk_none wr s xs hst]; exact hbuf
    | some k =>
      rw [step_chunk_some wr s xs k hst]
      intro p hp
      rcases List.mem_append.mp hp with h | h
      · exact hbuf p h
      · rcases List.mem_map.mp h with ⟨x, hx, rfl⟩
        exact hev x hx
  | snap sid =>
    by_cases h : sid ∈ s.pending
    · rw [step_snap_mem wr s sid h]
      intro p hp
      simp at hp
    · rw [step_snap_not wr s sid h]
      exact hbuf
  | finish sid res =>
    by_cases h : sid ∈ s.running
    · cases res with
      | ok t => rw [step_finish_ok wr s sid t h]; exact hbuf
      | error e =>
        by_cases he : e = noModelMsg
        · subst he
          rw [step_finish_nomodel wr s sid h]
          exact hbuf
        · rw [step_finish_err wr s sid e h he]
          exact hbuf
    · rw [step_finish_not wr s sid res h]
      exact hbuf

theorem level_mem_zero (wr : String → Except String Unit) (evs : List Ev) :
    ∀ s : SysState, (∀ p ∈ s.buffer, p.2 = 0) →
    (∀ e ∈ evs, ∀ x ∈ chunkVals e, x = 0) →
    ∀ sid q, Notif.audio_level sid q ∈ (runFrom wr s evs).2.1 → q = 0 := by
  induction evs with
  | nil =>
    intro s _ _ sid q hq
    simp [runFrom] at hq
  | cons e evs ih =>
    intro s hbuf hev sid q hq
    simp only [runFrom, List.mem_append] at hq
    rcases hq with hq | hq
    · rcases step_level_mem wr s e sid q hq with ⟨k, xs, rfl, hst, rfl⟩
      apply compute_rms_sq_zero
      intro y hy
      rcases List.mem_map.mp hy with ⟨p, hp, rfl⟩
      rcases List.mem_append.mp hp with h | h
      · exact hbuf p h
      · rcases List.mem_map.mp h with ⟨x, hx, rfl⟩
        exact hev _ (List.mem_cons_self _ _) x hx
    · exact ih (step wr s e).1
        (step_buffer_zero wr s e hbuf (hev e (List.mem_cons_self _ _)))
        (fun e' he' => hev e' (List.mem_cons_of_mem _ he')) sid q hq

/-! ## Helper lemmas: the structural invariant -/

theorem step_finish_state (wr : String → Except String Unit) (s : SysState)
    (sid : Nat) (res : Except String String) (h : sid ∈ s.running) :
    (step wr s (.finish sid res)).1 = { s with running := s.running.erase sid } := by
  cases res with
  | ok t => rw [step_finish_ok wr s sid t h]
  | error e =>
    by_cases he : e = noModelMsg
    · subst he
      rw [step_finish_nomodel wr s sid h]
    · rw [step_finish_err wr s sid e h he]

theorem stateInv_init : StateInv init := by
  refine ⟨?_, ?_, ?_, ?_, ?_⟩ <;> simp [pendRun, init]

theorem stateInv_step (wr : String → Except String Unit) (s : SysState)
    (e : Ev) (h : StateInv s) : StateInv (step wr s e).1 := by
  obtain ⟨hlt, hne, hnd, hstream, hpos⟩ := h
  cases e with
  | toggle =>
    cases hrec : s.is_recording with
    | false =>
      rw [step_start wr s hrec]
      refine ⟨?_, ?_, ?_, ?_, ?_⟩
      · intro x hx
        exact Nat.lt_succ_of_lt (hlt x hx)
      · intro _ x hx
        show x + 1 ≠ s.nextSid + 1
        have := hlt x hx
        omega
      · exact hnd
      · intro k hk
        have hk' : s.nextSid = k := Option.some.inj hk
        refine Or.inl ⟨rfl, ?_⟩
        show k + 1 = s.nextSid + 1
        omega
      · intro _
        show 1 ≤ s.nextSid + 1
        omega
    | true =>
      rw [step_stop wr s hrec]
      have hps : 1 ≤ s.nextSid := hpos hrec
      have hcur : (s.nextSid - 1) ∉ pendRun s := by
        intro hmem
        exact hne hrec _ hmem (by omega)
      have hperm : List.Perm ((s.pending ++ [s.nextSid - 1]) ++ s.running)
          ((s.nextSid - 1) :: pendRun s) := by
        have h1 : (s.pending ++ [s.nextSid - 1]) ++ s.running =
            s.pending ++ (s.nextSid - 1) :: s.running := by
          simp
        rw [h1]
        exact List.perm_middle
      refine ⟨?_, ?_, ?_, ?_, ?_⟩
      · intro x hx
        have hx' := hperm.mem_iff.mp hx
        rcases List.mem_cons.mp hx' with rfl | hx''
        · show s.nextSid - 1 < s.nextSid
          omega
        · exact hlt x hx''
      · intro hfalse
        simp at hfalse
      · exact hperm.symm.nodup_iff.mp (List.nodup_cons.mpr ⟨hcur, hnd⟩)
      · intro k hk
        rcases hstream k hk with ⟨_, hk1⟩ | hkp
        · exact Or.inr (List.mem_append_right _ (by simp; omega))
        · exact Or.inr (List.mem_append_left _ hkp)
      · intro hfalse
        simp at hfalse
  | chunk xs =>
    cases hst : s.streamSid with
    | none =>
      rw [step_chunk_none wr s xs hst]
      exact ⟨hlt, hne, hnd, hstream, hpos⟩
    | some k =>
      rw [step_chunk_some wr s xs k hst]
      exact ⟨hlt, hne, hnd, fun k' hk' => hstream k' hk', hpos⟩
  | snap sid =>
    by_cases hp : sid ∈ s.pending
    · rw [step_snap_mem wr s sid hp]
      have hperm : List.Perm (pendRun s)
          (sid :: (s.pending.erase sid ++ s.running)) :=
        (List.perm_cons_erase hp).append_right _
      have hperm2 : List.Perm (s.pending.erase sid ++ (s.running ++ [sid]))
          (sid :: (s.pending.erase sid ++ s.running)) := by
        have h1 : s.pending.erase sid ++ (s.running ++ [sid]) =
            (s.pending.erase sid ++ s.running) ++ sid :: [] := by
          simp
        rw [h1]
        exact List.perm_middle.trans (by simp)
      have hsub : ∀ x ∈ s.pending.erase sid ++ (s.running ++ [sid]),
          x ∈ pendRun s := by
        intro x hx
        rcases List.mem_cons.mp (hperm2.mem_iff.mp hx) with rfl | hx'
        · exact List.mem_append_left _ hp
        · rcases List.mem_append.mp hx' with h1 | h1
          · exact List.mem_append_left _ (List.mem_of_mem_erase h1)
          · exact List.mem_append_right _ h1
      refine ⟨?_, ?_, ?_, ?_, ?_⟩
      · intro x hx
        exact hlt x (hsub x hx)
      · intro hrec x hx
        exact hne hrec x (hsub x hx)
      · exact hperm2.symm.nodup_iff.mp (hperm.nodup_iff.mp hnd)
      · intro k hk
        simp at hk
      · exact hpos
    · rw [step_snap_not wr s sid hp]
      exact ⟨hlt, hne, hnd, hstream, hpos⟩
  | finish sid res =>
    by_cases hrn : sid ∈ s.running
    · rw [step_finish_state wr s sid res hrn]
      have hsub : ∀ x ∈ s.pending ++ s.running.erase sid, x ∈ pendRun s := by
        intro x hx
        rcases List.mem_append.mp hx with h1 | h1
        · exact List.mem_append_left _ h1
        · exact List.mem_append_right _ (List.mem_of_mem_erase h1)
      refine ⟨?_, ?_, ?_, ?_, ?_⟩
      · intro x hx
        exact hlt x (hsub x hx)
      · intro hrec x hx
        exact hne hrec x (hsub x hx)
      · exact List.Nodup.sublist
          ((List.erase_sublist sid s.running).append_left s.pending) hnd
      · intro k hk
        rcases hstream k hk with h1 | h1
        · exact Or.inl h1
        · exact Or.inr h1
      · exact hpos
    · rw [step_finish_not wr s sid res hrn]
      exact ⟨hlt, hne, hnd, hstream, hpos⟩

/-! ## Helper lemmas: per-session phases -/

theorem phaseNum_le_four (s : SysState) (sid : Nat) : phaseNum s sid ≤ 4 := by
  unfold phaseNum
  split_ifs <;> omega

theorem phaseNum_congr (s' s : SysState) (sid : Nat)
    (hr : (sid ∈ s'.running) ↔ (sid ∈ s.running))
    (hp : (sid ∈ s'.pending) ↔ (sid ∈ s.pending))
    (hc : (s'.is_recording = true ∧ sid + 1 = s'.nextSid) ↔
      (s.is_recording = true ∧ sid + 1 = s.nextSid))
    (hl : (sid < s'.nextSid) ↔ (sid < s.nextSid)) :
    phaseNum s' sid = phaseNum s sid := by
  unfold phaseNum
  simp only [hr, hp, hc, hl]

theorem filter_sid_single_eq (n : Notif) (sid : Nat) (h : sidOf n = sid) :
    [n].filter (fun m => sidOf m = sid) = [n] := by
  simp [h]

theorem filter_sid_single_ne (n : Notif) (sid : Nat) (h : ¬ sidOf n = sid) :
    [n].filter (fun m => sidOf m = sid) = [] := by
  simp [h]

theorem phase_step (wr : String → Except String Unit) (s : SysState) (e : Ev)
    (hInv : StateInv s) (sid : Nat) :
    ((step wr s e).2.1.filter (fun n => sidOf n = sid)).foldl notifKindStep
      (phaseNum s sid) = phaseNum (step wr s e).1 sid := by
  obtain ⟨hlt, hne, hnd, hstream, hpos⟩ := hInv
  have hdisj : s.pending.Disjoint s.running := (List.nodup_append.mp hnd).2.2
  have hndr : s.running.Nodup := (List.nodup_append.mp hnd).2.1
  cases e with
  | toggle =>
    cases hrec : s.is_recording with
    | false =>
      rw [step_start wr s hrec]
      dsimp only
      by_cases hsid : sid = s.nextSid
      · rw [hsid]
        have h1 : s.nextSid ∉ s.running :=
          fun hm => absurd (hlt _ (List.mem_append_right _ hm)) (lt_irrefl _)
        have h2 : s.nextSid ∉ s.pending :=
          fun hm => absurd (hlt _ (List.mem_append_left _ hm)) (lt_irrefl _)
        rw [filter_sid_single_eq (.recording_started s.nextSid) s.nextSid rfl,
          List.foldl_cons, List.foldl_nil]
        have hph : phaseNum s s.nextSid = 0 := by
          unfold phaseNum
          rw [if_neg h1, if_neg h2, if_neg (by simp [hrec]),
            if_neg (lt_irrefl _)]
        rw [hph]
        show (1 : Nat) = phaseNum _ s.nextSid
        unfold phaseNum
        rw [if_neg h1, if_neg h2, if_pos ⟨rfl, rfl⟩]
      · rw [filter_sid_single_ne _ _ (by simpa [sidOf] using Ne.symm hsid),
          List.foldl_nil]
        refine (phaseNum_congr _ s sid ?_ ?_ ?_ ?_).symm
        · exact Iff.rfl
        · exact Iff.rfl
        · constructor
          · rintro ⟨_, h2⟩
            have h2' : sid + 1 = s.nextSid + 1 := h2
            exact absurd (by omega : sid = s.nextSid) hsid
          · rintro ⟨h1, _⟩
            simp [hrec] at h1
        · show (sid < s.nextSid + 1) ↔ (sid < s.nextSid)
          omega
    | true =>
      rw [step_stop wr s hrec]
      dsimp only
      have hps : 1 ≤ s.nextSid := hpos hrec
      by_cases hsid : sid = s.nextSid - 1
      · rw [hsid]
        have hnp : (s.nextSid - 1) ∉ pendRun s := by
          intro hmem
          exact hne hrec _ hmem (by omega)
        have h1 : (s.nextSid - 1) ∉ s.running :=
          fun hm => hnp (List.mem_append_right _ hm)
        have h2 : (s.nextSid - 1) ∉ s.pending :=
          fun hm => hnp (List.mem_append_left _ hm)
        rw [filter_sid_single_eq (.recording_stopped (s.nextSid - 1)) (s.nextSid - 1) rfl,
          List.foldl_cons, List.foldl_nil]
        have hph : phaseNum s (s.nextSid - 1) = 1 := by
          unfold phaseNum
          rw [if_neg h1, if_neg h2, if_pos ⟨hrec, by omega⟩]
        rw [hph]
        show (2 : Nat) = phaseNum _ (s.nextSid - 1)
        unfold phaseNum
        rw [if_neg h1,
          if_pos (List.mem_append_right _ (List.mem_singleton.mpr rfl))]
      · rw [filter_sid_single_ne _ _ (by simpa [sidOf] using Ne.symm hsid),
          List.foldl_nil]
        refine (phaseNum_congr _ s sid ?_ ?_ ?_ ?_).symm
        · exact Iff.rfl
        · show (sid ∈ s.pending ++ [s.nextSid - 1]) ↔ (sid ∈ s.pending)
          simp [List.mem_append, hsid]
        · constructor
          · rintro ⟨h1, _⟩
            simp at h1
          · rintro ⟨_, h2⟩
            have h2' : sid + 1 = s.nextSid := h2
            exact absurd (by omega : sid = s.nextSid - 1) hsid
        · exact Iff.rfl
  | chunk xs =>
    cases hst : s.streamSid with
    | none =>
      rw [step_chunk_none wr s xs hst]
      simp
    | some k =>
      rw [step_chunk_some wr s xs k hst]
      dsimp only
      by_cases hsid : sid = k
      · subst hsid
        rw [filter_sid_single_eq
            (.audio_level sid (compute_rms_sq
              (List.map Prod.snd (s.buffer ++ List.map (fun x => (sid, x)) xs))))
            sid rfl,
          List.foldl_cons, List.foldl_nil]
        rcases hstream sid hst with ⟨hrec, hke⟩ | hkp
        · have hnp : sid ∉ pendRun s := by
            intro hmem
            exact hne hrec _ hmem hke
          have h1 : sid ∉ s.running := fun hm => hnp (List.mem_append_right _ hm)
          have h2 : sid ∉ s.pending := fun hm => hnp (List.mem_append_left _ hm)
          have hph : phaseNum s sid = 1 := by
            unfold phaseNum
            rw [if_neg h1, if_neg h2, if_pos ⟨hrec, hke⟩]
          rw [hph]
          show (1 : Nat) = phaseNum _ sid
          unfold phaseNum
          rw [if_neg h1, if_neg h2, if_pos ⟨hrec, hke⟩]
        · have h1 : sid ∉ s.running := fun hm => hdisj hkp hm
          have hph : phaseNum s sid = 2 := by
            unfold phaseNum
            rw [if_neg h1, if_pos hkp]
          rw [hph]
          show (2 : Nat) = phaseNum _ sid
          unfold phaseNum
          rw [if_neg h1, if_pos hkp]
      · rw [filter_sid_single_ne _ _ (by simpa [sidOf] using Ne.symm hsid),
          List.foldl_nil]
        rfl
  | snap sid0 =>
    by_cases hp : sid0 ∈ s.pending
    · rw [step_snap_mem wr s sid0 hp]
      dsimp only
      by_cases hsid : sid = sid0
      · subst hsid
        have h1 : sid ∉ s.running := fun hm => hdisj hp hm
        rw [filter_sid_single_eq (.transcription_started sid) sid rfl,
          List.foldl_cons, List.foldl_nil]
        have hph : phaseNum s sid = 2 := by
          unfold phaseNum
          rw [if_neg h1, if_pos hp]
        rw [hph]
        show (3 : Nat) = phaseNum _ sid
        unfold phaseNum
        rw [if_pos (List.mem_append_right _ (List.mem_singleton.mpr rfl))]
      · rw [filter_sid_single_ne _ _ (by simpa [sidOf] using Ne.symm hsid),
          List.foldl_nil]
        refine (phaseNum_congr _ s sid ?_ ?_ ?_ ?_).symm
        · show (sid ∈ s.running ++ [sid0]) ↔ (sid ∈ s.running)
          simp [List.mem_append, hsid]
        · show (sid ∈ s.pending.erase sid0) ↔ (sid ∈ s.pending)
          exact List.mem_erase_of_ne hsid
        · exact Iff.rfl
        · exact Iff.rfl
    · rw [step_snap_not wr s sid0 hp]
      simp
  | finish sid0 res =>
    by_cases hrn : sid0 ∈ s.running
    · have hterm : ∃ n : Notif, (step wr s (.finish sid0 res)).2.1 = [n]
          ∧ sidOf n = sid0 ∧ notifKindStep 3 n = 4 := by
        cases res with
        | ok t =>
          refine ⟨.transcription_done sid0 t, ?_, rfl, rfl⟩
          rw [step_finish_ok wr s sid0 t hrn]
        | error e =>
          by_cases he : e = noModelMsg
          · subst he
            refine ⟨.no_model_selected sid0, ?_, rfl, rfl⟩
            rw [step_finish_nomodel wr s sid0 hrn]
          · refine ⟨.transcription_error sid0 e, ?_, rfl, rfl⟩
            rw [step_finish_err wr s sid0 e hrn he]
      rcases hterm with ⟨n, hn, hsn, hkn⟩
      rw [hn, step_finish_state wr s sid0 res hrn]
      by_cases hsid : sid = sid0
      · subst hsid
        rw [filter_sid_single_eq _ _ hsn, List.foldl_cons, List.foldl_nil]
        have hph : phaseNum s sid = 3 := by
          unfold phaseNum
          rw [if_pos hrn]
        rw [hph, hkn]
        have h1 : sid ∉ s.running.erase sid := hndr.not_mem_erase
        have h2 : sid ∉ s.pending := fun hm => hdisj hm hrn
        have h3 : ¬ (s.is_recording = true ∧ sid + 1 = s.nextSid) := by
          rintro ⟨ha, hb⟩
          exact hne ha _ (List.mem_append_right _ hrn) hb
        have h4 : sid < s.nextSid := hlt _ (List.mem_append_right _ hrn)
        show (4 : Nat) = phaseNum _ sid
        unfold phaseNum
        rw [if_neg h1, if_neg h2, if_neg h3, if_pos h4]
      · rw [filter_sid_single_ne _ _ (by rw [hsn]; exact fun hh => hsid hh.symm),
          List.foldl_nil]
        refine (phaseNum_congr _ s sid ?_ ?_ ?_ ?_).symm
        · show (sid ∈ s.running.erase sid0) ↔ (sid ∈ s.running)
          exact List.mem_erase_of_ne hsid
        · exact Iff.rfl
        · exact Iff.rfl
        · exact Iff.rfl
    · rw [step_finish_not wr s sid0 res hrn]
      simp

theorem phase_runFrom (wr : String → Except String Unit) (evs : List Ev) :
    ∀ s, StateInv s → ∀ sid,
    ((runFrom wr s evs).2.1.filter (fun n => sidOf n = sid)).foldl notifKindStep
      (phaseNum s sid) = phaseNum (runFrom wr s evs).1 sid := by
  induction evs with
  | nil =>
    intro s _ sid
    simp [runFrom]
  | cons e evs ih =>
    intro s hInv sid
    simp only [runFrom, List.filter_append, List.foldl_append]
    rw [phase_step wr s e hInv sid]
    exact ih (step wr s e).1 (stateInv_step wr s e hInv) sid

/-! ## Helper lemmas: session alternation -/

theorem marksOf_append (a b : List Notif) :
    marksOf (a ++ b) = marksOf a ++ marksOf b :=
  List.filterMap_append a b sessionMark

theorem marks_step (wr : String → Except String Unit) (s : SysState) (e : Ev)
    (hInv : StateInv s) :
    stateMarks s.nextSid s.is_recording ++ marksOf (step wr s e).2.1
      = stateMarks (step wr s e).1.nextSid (step wr s e).1.is_recording := by
  obtain ⟨hlt, hne, hnd, hstream, hpos⟩ := hInv
  cases e with
  | toggle =>
    cases hrec : s.is_recording with
    | false =>
      rw [step_start wr s hrec]
      dsimp only
      simp [stateMarks, marksOf, sessionMark]
    | true =>
      rw [step_stop wr s hrec]
      dsimp only
      have hps := hpos hrec
      obtain ⟨m, hm⟩ : ∃ m, s.nextSid = m + 1 := ⟨s.nextSid - 1, by omega⟩
      rw [hm]
      simp [stateMarks, marksOf, sessionMark, fullMarks]
  | chunk xs =>
    cases hst : s.streamSid with
    | none =>
      rw [step_chunk_none wr s xs hst]
      simp [marksOf]
    | some k =>
      rw [step_chunk_some wr s xs k hst]
      simp [marksOf, sessionMark]
  | snap sid0 =>
    by_cases hp : sid0 ∈ s.pending
    · rw [step_snap_mem wr s sid0 hp]
      simp [marksOf, sessionMark]
    · rw [step_snap_not wr s sid0 hp]
      simp [marksOf]
  | finish sid0 res =>
    by_cases hrn : sid0 ∈ s.running
    · have hmm : marksOf (step wr s (.finish sid0 res)).2.1 = []
          ∧ (step wr s (.finish sid0 res)).1.nextSid = s.nextSid
          ∧ (step wr s (.finish sid0 res)).1.is_recording = s.is_recording := by
        cases res with
        | ok t =>
          rw [step_finish_ok wr s sid0 t hrn]
          exact ⟨rfl, rfl, rfl⟩
        | error e =>
          by_cases he : e = noModelMsg
          · subst he
            rw [step_finish_nomodel wr s sid0 hrn]
            exact ⟨rfl, rfl, rfl⟩
          · rw [step_finish_err wr s sid0 e hrn he]
            exact ⟨rfl, rfl, rfl⟩
      rw [hmm.1, hmm.2.1, hmm.2.2, List.append_nil]
    · rw [step_finish_not wr s sid0 res hrn]
      simp [marksOf]

theorem marks_runFrom (wr : String → Except String Unit) (evs : List Ev) :
    ∀ s, StateInv s →
    stateMarks s.nextSid s.is_recording ++ marksOf (runFrom wr s evs).2.1
      = stateMarks (runFrom wr s evs).1.nextSid
          (runFrom wr s evs).1.is_recording := by
  induction evs with
  | nil =>
    intro s _
    simp [runFrom, marksOf]
  | cons e evs ih =>
    intro s hInv
    simp only [runFrom]
    rw [marksOf_append, ← List.append_assoc, marks_step wr s e hInv]
    exact ih (step wr s e).1 (stateInv_step wr s e hInv)

/-! ## Helper lemmas: prompt schedules and snapshot purity -/

theorem promptInv_init : PromptInv init := by
  refine ⟨stateInv_init, ?_, ?_, ?_, ?_, ?_⟩ <;> simp [init]

theorem promptInv_step (wr : String → Except String Unit) (s : SysState)
    (e : Ev) (h : PromptInv s)
    (hguard : e = Ev.toggle → s.is_recording = true ∨ s.pending = []) :
    PromptInv (step wr s e).1 := by
  obtain ⟨hbase, hbt, hbn, hst, hpl, hrp⟩ := h
  have hbase' := stateInv_step wr s e hbase
  cases e with
  | toggle =>
    cases hrec : s.is_recording with
    | false =>
      have hpend : s.pending = [] := by
        rcases hguard rfl with h1 | h1
        · rw [hrec] at h1
          exact absurd h1 (by simp)
        · exact h1
      have hnone : s.streamSid = none := by
        cases hss : s.streamSid with
        | none => rfl
        | some k =>
          rcases hbase.stream_inv k hss with ⟨h1, _⟩ | h1
          · rw [hrec] at h1
            simp at h1
          · rw [hpend] at h1
            simp at h1
      have hbuf : s.buffer = [] := hbn hnone
      rw [step_start wr s hrec]
      rw [step_start wr s hrec] at hbase'
      refine ⟨hbase', ?_, ?_, hst, ?_, ?_⟩
      · intro k hk q hq
        have hq' : q ∈ s.buffer := hq
        rw [hbuf] at hq'
        simp at hq'
      · intro hknone
        have : (some s.nextSid : Option Nat) = none := hknone
        simp at this
      · show s.pending.length ≤ 1
        exact hpl
      · intro _
        exact hpend
    | true =>
      rw [step_stop wr s hrec]
      rw [step_stop wr s hrec] at hbase'
      have hpend : s.pending = [] := hrp hrec
      refine ⟨hbase', ?_, ?_, hst, ?_, ?_⟩
      · intro k hk q hq
        exact hbt k hk q hq
      · intro hn
        exact hbn hn
      · show (s.pending ++ [s.nextSid - 1]).length ≤ 1
        rw [hpend]
        simp
      · intro hfalse
        simp at hfalse
  | chunk xs =>
    cases hss : s.streamSid with
    | none =>
      rw [step_chunk_none wr s xs hss]
      rw [step_chunk_none wr s xs hss] at hbase'
      exact ⟨hbase', hbt, hbn, hst, hpl, hrp⟩
    | some k =>
      rw [step_chunk_some wr s xs k hss]
      rw [step_chunk_some wr s xs k hss] at hbase'
      refine ⟨hbase', ?_, ?_, hst, hpl, hrp⟩
      · intro k' hk' q hq
        have hk'' : s.streamSid = some k' := hk'
        rw [hss] at hk''
        have hkk : k = k' := Option.some.inj hk''
        subst hkk
        have hq' : q ∈ s.buffer ++ xs.map (fun x => (k, x)) := hq
        rcases List.mem_append.mp hq' with h1 | h1
        · exact hbt k hss q h1
        · rcases List.mem_map.mp h1 with ⟨x, hx, rfl⟩
          rfl
      · intro hn
        have hn' : s.streamSid = none := hn
        rw [hss] at hn'
        simp at hn'
  | snap sid0 =>
    by_cases hp : sid0 ∈ s.pending
    · have hpone : s.pending = [sid0] := by
        cases hpd : s.pending with
        | nil =>
          rw [hpd] at hp
          simp at hp
        | cons a t =>
          cases t with
          | nil =>
            rw [hpd] at hp
            simp at hp
            rw [hp]
          | cons b t2 =>
            rw [hpd] at hpl
            simp at hpl
      have hrecF : s.is_recording = false := by
        cases hrec : s.is_recording with
        | false => rfl
        | true =>
          rw [hrp hrec] at hp
          simp at hp
      have hbufall : ∀ q ∈ s.buffer, q.1 = sid0 := by
        cases hss : s.streamSid with
        | none =>
          rw [hbn hss]
          simp
        | some k =>
          rcases hbase.stream_inv k hss with ⟨h1, _⟩ | h1
          · rw [hrecF] at h1
            simp at h1
          · rw [hpone] at h1
            simp at h1
            subst h1
            exact hbt k hss
      rw [step_snap_mem wr s sid0 hp]
      rw [step_snap_mem wr s sid0 hp] at hbase'
      refine ⟨hbase', ?_, ?_, ?_, ?_, ?_⟩
      · intro k hk q hq
        simp at hq
      · intro _
        rfl
      · intro p hp' q hq
        have hp'' : p ∈ s.snaps ++ [(sid0, s.buffer)] := hp'
        rcases List.mem_append.mp hp'' with h1 | h1
        · exact hst p h1 q hq
        · have hpe : p = (sid0, s.buffer) := by simpa using h1
          subst hpe
          exact hbufall q hq
      · show (s.pending.erase sid0).length ≤ 1
        exact le_trans (List.Sublist.length_le (List.erase_sublist _ _)) hpl
      · intro hrec
        have : s.is_recording = true := hrec
        rw [hrecF] at this
        simp at this
    · rw [step_snap_not wr s sid0 hp]
      rw [step_snap_not wr s sid0 hp] at hbase'
      exact ⟨hbase', hbt, hbn, hst, hpl, hrp⟩
  | finish sid0 res =>
    by_cases hrn : sid0 ∈ s.running
    · rw [step_finish_state wr s sid0 res hrn]
      rw [step_finish_state wr s sid0 res hrn] at hbase'
      exact ⟨hbase', hbt, hbn, hst, hpl, hrp⟩
    · rw [step_finish_not wr s sid0 res hrn]
      rw [step_finish_not wr s sid0 res hrn] at hbase'
      exact ⟨hbase', hbt, hbn, hst, hpl, hrp⟩

theorem promptInv_runFrom (wr : String → Except String Unit) (evs : List Ev) :
    ∀ s, promptFrom wr s evs = true → PromptInv s →
    PromptInv (runFrom wr s evs).1 := by
  induction evs with
  | nil =>
    intro s _ h
    simpa [runFrom] using h
  | cons e evs ih =>
    intro s hpr h
    simp only [promptFrom, Bool.and_eq_true] at hpr
    refine ih (step wr s e).1 hpr.2 (promptInv_step wr s e h ?_)
    intro he
    subst he
    have h1 := hpr.1
    simp at h1
    rcases h1 with h1 | h1
    · exact Or.inl h1
    · exact Or.inr h1

/-! ## Claim theorems -/

/-- C4: `resample` is deterministic (it is a function of its arguments) and,
for positive rates, returns `round(len · target / source)` samples; it is the
identity when the rates agree; empty input gives empty output, not an error;
and at 48000 → 16000 the output length is `round(len / 3)`. -/
theorem c4_resample_spec (x : List ℚ) (sr tr : Nat) (hs : 0 < sr) (ht : 0 < tr) :
    (resample x sr tr).length = roundDiv (x.length * tr) sr
    ∧ resample x sr sr = x
    ∧ resample ([] : List ℚ) sr tr = []
    ∧ (resample x 48000 16000).length = roundDiv x.length 3 := by
  have hlen : ∀ (y : List ℚ) (a b : Nat), 0 < a →
      (resample y a b).length = roundDiv (y.length * b) a := by
    intro y a b ha
    unfold resample
    split
    · rename_i hab
      subst hab
      unfold roundDiv
      rw [show 2 * (y.length * a) + a = a * (2 * y.length + 1) by ring,
        show 2 * a = a * 2 by ring, Nat.mul_div_mul_left _ _ ha]
      omega
    · simp
  refine ⟨hlen x sr tr hs, ?_, ?_, ?_⟩
  · unfold resample
    simp
  · rcases eq_or_ne sr tr with h | h
    · subst h
      unfold resample
      simp
    · unfold resample
      rw [if_neg h]
      have h0 : roundDiv (List.length ([] : List ℚ) * tr) sr = 0 := by
        unfold roundDiv
        simp only [List.length_nil, Nat.zero_mul, Nat.mul_zero, Nat.zero_add]
        exact Nat.div_eq_of_lt (by omega)
      rw [h0]
      simp
  · rw [hlen x 48000 16000 (by norm_num)]
    unfold roundDiv
    rw [show 2 * (x.length * 16000) + 48000 = 16000 * (2 * x.length + 3) by ring,
      show 2 * 48000 = 16000 * 6 by norm_num,
      Nat.mul_div_mul_left _ _ (by norm_num : 0 < 16000)]

/-- Witness for C4 at a concrete input. -/
theorem c4_resample_spec_witness :
    (resample [1, 0, 1] 48000 16000).length = roundDiv (([1, 0, 1] : List ℚ).length * 16000) 48000
    ∧ resample [1, 0, 1] 48000 48000 = [1, 0, 1]
    ∧ resample ([] : List ℚ) 48000 16000 = []
    ∧ (resample [1, 0, 1] 48000 16000).length = roundDiv ([1, 0, 1] : List ℚ).length 3 :=
  c4_resample_spec [1, 0, 1] 48000 16000 (by norm_num) (by norm_num)

/-- C5: `transcribe` on an unloaded engine fails with the not-loaded error
(reported outward as `no_model_selected`) and performs zero invocations of
the underlying model. -/
theorem c5_unloaded_transcribe (samples : List ℚ) (rate : Nat)
    (ws : WhisperState) (h : ws.ctx = none) :
    run_whisper_on_buffer samples rate ws = (.error noModelMsg, 0) := by
  unfold run_whisper_on_buffer
  rw [h]

/-- Witness for C5 at a concrete input. -/
theorem c5_unloaded_transcribe_witness :
    run_whisper_on_buffer [1] 48000 ⟨none, none⟩ = (.error noModelMsg, 0) :=
  c5_unloaded_transcribe [1] 48000 ⟨none, none⟩ rfl

/-- C6: a failing `loadModel` returns the `ModelError` and leaves the engine
state exactly as it was — an unloaded engine stays unloaded, and a previously
loaded model stays loaded and untouched. -/
theorem c6_load_failure_preserves_state
    (load : String → Except String WhisperCtx) (path : String)
    (ws : WhisperState) (e : String) (h : load path = .error e) :
    set_active_model load path ws = (.error e, ws) := by
  unfold set_active_model
  rw [h]

/-- Witness for C6 at a concrete input. -/
theorem c6_load_failure_preserves_state_witness :
    set_active_model (fun _ => .error "model file not found") "C:/missing.bin"
      ⟨none, none⟩ = (.error "model file not found", ⟨none, none⟩) :=
  c6_load_failure_preserves_state (fun _ => .error "model file not found")
    "C:/missing.bin" ⟨none, none⟩ "model file not found" rfl

/-- C1 counterexample: after `twoJobsTrace` both session 0's and session 1's
workers hold snapshots and sit in inference, so two `TranscriptionJob`s are
in flight at once and the two `Transcribing` periods overlap (both
`transcription_started` events precede either terminal event), contrary to
the claimed single-flight invariant. -/
theorem c1_counterexample :
    (runState wrOk twoJobsTrace).running = [0, 1]
    ∧ inflight (runState wrOk twoJobsTrace) = 2
    ∧ runNotifs wrOk twoJobsTrace =
      [.recording_started 0, .recording_stopped 0, .transcription_started 0,
       .recording_started 1, .recording_stopped 1, .transcription_started 1] := by
  decide

/-- C2 counterexample: with session 0's worker mid-inference (state
`Transcribing`), a toggle is not dropped: it flips the controller to
recording and emits `recording_started 1`. -/
theorem c2_counterexample :
    (runState wrOk midTranscribeTrace).is_recording = false
    ∧ (runState wrOk midTranscribeTrace).running = [0]
    ∧ (runState wrOk (midTranscribeTrace ++ [.toggle])).is_recording = true
    ∧ runNotifs wrOk (midTranscribeTrace ++ [.toggle]) =
      runNotifs wrOk midTranscribeTrace ++ [.recording_started 1] := by
  decide

/-- C2 amended: a toggle that arrives while the controller flag is down — in
particular while a previous session's transcription is still in flight —
starts a fresh session: the state moves to Capturing and
`recording_started` is emitted.  Nothing is dropped or queued. -/
theorem c2_amended (wr : String → Except String Unit) (s : SysState)
    (h : s.is_recording = false) :
    step wr s .toggle =
      ({ s with is_recording := true, streamSid := some s.nextSid,
                nextSid := s.nextSid + 1 },
       [.recording_started s.nextSid], []) := by
  simp [step, h]

/-- Witness for C2 amended, at a state with a worker still in inference. -/
theorem c2_amended_witness :
    step wrOk { init with running := [0] } .toggle =
      ({ init with running := [0], is_recording := true,
                   streamSid := some 0, nextSid := 1 },
       [.recording_started 0], []) := by
  rw [c2_amended wrOk { init with running := [0] } rfl]
  decide

/-- C3 counterexample: on `crossSessionTrace` the claim fails twice over.
Session 0's notifications are `started, stopped, audio_level, …` — a level
after the stop, because the capture callback still runs until the worker
drops the stream — and session 1's notifications all precede session 0's
terminal notification. -/
theorem c3_counterexample :
    (runNotifs wrOk crossSessionTrace).map kindSid =
      [(.started, 0), (.stopped, 0), (.level, 0),
       (.started, 1), (.stopped, 1), (.tstarted, 0), (.done "hi", 0)]
    ∧ strictOk (sessionNotifs 0 (runNotifs wrOk crossSessionTrace)) = false
    ∧ noLaterBefore (runNotifs wrOk crossSessionTrace) = false := by
  decide

/-- C7 counterexample: a transcription that succeeds with `""` still drives
the dispatcher — the clipboard is written with the empty string and the
paste gesture is synthesized — while `transcription_done` is emitted with
the empty payload. -/
theorem c7_counterexample :
    runActs wrOk emptyTextTrace = [.clipboard_write "" true, .paste]
    ∧ Action.paste ∈ runActs wrOk emptyTextTrace
    ∧ runNotifs wrOk emptyTextTrace =
      [.recording_started 0, .recording_stopped 0, .transcription_started 0,
       .transcription_done 0 ""] := by
  decide

/-- C7 amended: an empty transcription result is treated as a success —
`transcription_done` is emitted with the empty payload and the session
completes — but the dispatch is not skipped: the clipboard write (and, on
success, the paste gesture) happen for empty text exactly as for any other
text. -/
theorem c7_amended (wr : String → Except String Unit) (s : SysState)
    (sid : Nat) (h : sid ∈ s.running) :
    step wr s (.finish sid (.ok "")) =
      ({ s with running := s.running.erase sid },
       [.transcription_done sid ""], (dispatch wr "").1) := by
  simp [step, h]

/-- Witness for C7 amended at a concrete state. -/
theorem c7_amended_witness :
    step wrOk { init with running := [0] } (.finish 0 (.ok "")) =
      (init, [.transcription_done 0 ""], [.clipboard_write "" true, .paste]) := by
  rw [c7_amended wrOk { init with running := [0] } 0 (by decide)]
  decide

/-- C8: the paste gesture is synthesized if and only if the clipboard write
succeeds.  When the write fails, no paste occurs and a `paste_error` is
reported, yet `transcription_done` with the text is still emitted; when the
write succeeds the paste follows it. -/
theorem c8_dispatch_iff (wr wr2 : String → Except String Unit) (t e : String)
    (s : SysState) (sid : Nat) (hw : wr t = .error e) (hw2 : wr2 t = .ok ())
    (hs : sid ∈ s.running) :
    (step wr s (.finish sid (.ok t))).2.1 = [.transcription_done sid t]
    ∧ (step wr s (.finish sid (.ok t))).2.2 =
        [.clipboard_write t false, .paste_error e]
    ∧ Action.paste ∉ (step wr s (.finish sid (.ok t))).2.2
    ∧ (dispatch wr2 t).1 = [.clipboard_write t true, .paste] := by
  have hd : dispatch wr t = ([.clipboard_write t false, .paste_error e], .error e) := by
    unfold dispatch
    rw [hw]
  have hd2 : dispatch wr2 t = ([.clipboard_write t true, .paste], .ok ()) := by
    unfold dispatch
    rw [hw2]
  have hstep : step wr s (.finish sid (.ok t)) =
      ({ s with running := s.running.erase sid },
       [.transcription_done sid t], (dispatch wr t).1) := by
    simp [step, hs]
  rw [hstep, hd]
  refine ⟨rfl, rfl, by simp, by rw [hd2]⟩

/-- Witness for C8 with a failing and a succeeding clipboard oracle. -/
theorem c8_dispatch_iff_witness :
    (step (fun _ => .error "clipboard unavailable") { init with running := [0] }
        (.finish 0 (.ok "hello"))).2.1 = [.transcription_done 0 "hello"]
    ∧ (step (fun _ => .error "clipboard unavailable") { init with running := [0] }
        (.finish 0 (.ok "hello"))).2.2 =
        [.clipboard_write "hello" false, .paste_error "clipboard unavailable"]
    ∧ Action.paste ∉ (step (fun _ => .error "clipboard unavailable")
        { init with running := [0] } (.finish 0 (.ok "hello"))).2.2
    ∧ (dispatch wrOk "hello").1 = [.clipboard_write "hello" true, .paste] :=
  c8_dispatch_iff (fun _ => .error "clipboard unavailable") wrOk "hello"
    "clipboard unavailable" { init with running := [0] } 0 rfl rfl (by decide)

/-- C10 counterexample: on `staleBufferTrace`, session 1 starts before
session 0's worker has taken its snapshot; session 1's snapshot then holds
session 0's sample (tagged 0) alongside its own — audio captured in the
earlier session reaches the later session's transcription input. -/
theorem c10_counterexample :
    (runState wrOk staleBufferTrace).snaps = [(1, [(0, 1), (1, 2)])]
    ∧ snapsPure (runState wrOk staleBufferTrace) = false := by
  decide

/-- C9: assuming every captured sample is normalized to `[-1, 1]`
(equivalently `x·x ≤ 1`), every `audio_level` value emitted during a run —
`√ levelSq` — lies in `[0, 1]`; and if the accumulated samples are all zero,
the emitted level is `0`. -/
theorem c9_audio_level_bounds (wr : String → Except String Unit)
    (evs : List Ev) (sid : Nat) (q : ℚ)
    (hb : ∀ e ∈ evs, ∀ x ∈ chunkVals e, x * x ≤ 1)
    (hm : Notif.audio_level sid q ∈ runNotifs wr evs) :
    (0 ≤ Real.sqrt (q : ℝ) ∧ Real.sqrt (q : ℝ) ≤ 1)
    ∧ ((∀ e ∈ evs, ∀ x ∈ chunkVals e, x = 0) → Real.sqrt (q : ℝ) = 0) := by
  have h1 := level_mem_bound wr evs init (by simp [init]) hb sid q hm
  constructor
  · exact ⟨Real.sqrt_nonneg _, Real.sqrt_le_one.mpr (by exact_mod_cast h1.2)⟩
  · intro hz
    have h0 : q = 0 := level_mem_zero wr evs init (by simp [init]) hz sid q hm
    rw [h0]
    push_cast
    exact Real.sqrt_zero

/-- Witness for C9: the level emitted after capturing the single silent
sample `0` is exactly `0`. -/
theorem c9_audio_level_bounds_witness :
    (0 ≤ Real.sqrt ((compute_rms_sq [(0 : ℚ)] : ℚ) : ℝ)
     ∧ Real.sqrt ((compute_rms_sq [(0 : ℚ)] : ℚ) : ℝ) ≤ 1)
    ∧ Real.sqrt ((compute_rms_sq [(0 : ℚ)] : ℚ) : ℝ) = 0 := by
  have hb : ∀ e ∈ [Ev.toggle, Ev.chunk [0]], ∀ x ∈ chunkVals e, x * x ≤ 1 := by
    intro e he x hx
    simp only [List.mem_cons, List.not_mem_nil, or_false] at he
    rcases he with rfl | rfl
    · simp [chunkVals] at hx
    · simp [chunkVals] at hx
      rw [hx]
      norm_num
  have hz : ∀ e ∈ [Ev.toggle, Ev.chunk [0]], ∀ x ∈ chunkVals e, x = 0 := by
    intro e he x hx
    simp only [List.mem_cons, List.not_mem_nil, or_false] at he
    rcases he with rfl | rfl
    · simp [chunkVals] at hx
    · simp [chunkVals] at hx
      exact hx
  have hm : Notif.audio_level 0 (compute_rms_sq [(0 : ℚ)]) ∈
      runNotifs wrOk [Ev.toggle, Ev.chunk [0]] := by
    show Notif.audio_level 0 (compute_rms_sq [(0 : ℚ)]) ∈
      [Notif.recording_started 0, Notif.audio_level 0 (compute_rms_sq [(0 : ℚ)])]
    simp
  have h := c9_audio_level_bounds wrOk [Ev.toggle, Ev.chunk [0]] 0
    (compute_rms_sq [(0 : ℚ)]) hb hm
  exact ⟨h.1, h.2 hz⟩

/-- C1 amended: at most one `RecordingSession` exists at any time — on every
schedule the `recording_started` / `recording_stopped` notifications strictly
alternate with consecutive session ids (`fullMarks`), so no two `Capturing`
periods overlap.  The in-flight-`TranscriptionJob` half of the claim fails:
see the counterexample, where two workers sit in inference at once. -/
theorem c1_amended (wr : String → Except String Unit) (evs : List Ev) :
    ∃ n, marksOf (runNotifs wr evs) = fullMarks n
      ∨ marksOf (runNotifs wr evs) = fullMarks n ++ [(true, n)] := by
  have h := marks_runFrom wr evs init stateInv_init
  have h0 : stateMarks init.nextSid init.is_recording = [] := by
    simp [stateMarks, init, fullMarks]
  rw [h0, List.nil_append] at h
  have hEq : marksOf (runNotifs wr evs) =
      stateMarks (runFrom wr init evs).1.nextSid
        (runFrom wr init evs).1.is_recording := h
  cases hb : (runFrom wr init evs).1.is_recording with
  | false =>
    refine ⟨(runFrom wr init evs).1.nextSid, Or.inl ?_⟩
    rw [hEq, hb]
    simp [stateMarks]
  | true =>
    refine ⟨(runFrom wr init evs).1.nextSid - 1, Or.inr ?_⟩
    rw [hEq, hb]
    simp [stateMarks]

/-- C3 amended: per-session ordering holds in the relaxed form — for every
schedule and every session, the session's notifications pass the order
automaton (`recording_started`, then `audio_level`s, then
`recording_stopped`, then possibly further `audio_level`s while the stream
is still open, then `transcription_started`, then at most one terminal
notification): the automaton never reaches its reject state 5.  The strict
spec order and the cross-session ordering fail — see the counterexample. -/
theorem c3_amended (wr : String → Except String Unit) (evs : List Ev)
    (sid : Nat) :
    sessionPhase (sessionNotifs sid (runNotifs wr evs)) ≤ 4 := by
  have h := phase_runFrom wr evs init stateInv_init sid
  have h0 : phaseNum init sid = 0 := by
    unfold phaseNum
    simp [init]
  rw [h0] at h
  show ((runFrom wr init evs).2.1.filter
    (fun n => sidOf n = sid)).foldl notifKindStep 0 ≤ 4
  rw [h]
  exact phaseNum_le_four _ sid

/-- C10 amended: under a prompt schedule — every stopped session's worker has
taken its snapshot before the next session starts — every snapshot handed to
transcription is pure: each of its samples was captured by the stream of the
very session the snapshot belongs to.  On general schedules this fails — see
the counterexample, where a stale buffer leaks an earlier session's audio
into a later session's job. -/
theorem c10_amended (wr : String → Except String Unit) (evs : List Ev)
    (h : promptFrom wr init evs = true) :
    snapsPure (runState wr evs) = true := by
  have hInv := promptInv_runFrom wr evs init h promptInv_init
  have hs := hInv.snaps_tag
  rw [snapsPure, List.all_eq_true]
  intro p hp
  rw [List.all_eq_true]
  intro q hq
  exact beq_iff_eq.mpr (hs p hp q hq)

/-- Witness for C10 amended: the two-session prompt schedule yields pure
snapshots. -/
theorem c10_amended_witness : snapsPure (runState wrOk promptTrace) = true :=
  c10_amended wrOk promptTrace (by decide)

end Winsper
